import Mathlib

/-!
A verification development for the next-dynamic-metadata package.

The decision logic of the package lives in src/utils/resolveMetadata.ts
(route matching by compiled regular expressions plus a shallow merge) and in
the client component src/client/MetadataHydrator.ts (imperative patching of
the document title and two meta elements).  Both are embedded below.

Route patterns are compiled by the source line
  "^" + route.replace(/:[^\/]+/g, "([^/]+)") + "$".
`replaceColons` models the global replacement (every maximal run of
non-slash characters starting at a colon becomes the seven characters
of a capture group), `parseTokens` models how the resulting
regular-expression body is read (a group or a literal character), and
`tokMatch` models the anchored test of the whole path.  The token reading
is exact for bodies made of the inserted groups and of characters that are
not regular-expression metacharacters; route patterns containing other
metacharacters have undefined matching behaviour per the spec and appear in
no claim.

Resolver functions may be asynchronous and may reject, and the JavaScript
caller awaits them without any catch.  The embedding is parametric in a
monad m: Except models a promise that can reject, Id a total resolver, and
StateM a resolver with observable effects.

The document effect of the hydrator is a function on an abstract document
state `DocState`, with a `rest` component for everything the effect never
touches.
-/

namespace NextDynamicMetadata

/-- Open Graph sub-record of `RouteMeta` (src/types.ts). -/
structure OpenGraphMeta where
  type : Option String := none
  image : Option String := none
  url : Option String := none
deriving DecidableEq, Repr

/-- Twitter sub-record of `RouteMeta` (src/types.ts). -/
structure TwitterMeta where
  card : Option String := none
  site : Option String := none
  creator : Option String := none
  image : Option String := none
deriving DecidableEq, Repr

/-- The metadata record of src/types.ts.  The jsonLd field holds arbitrary
structured data; its values are opaque to every operation of the package,
so they are modelled as strings. -/
structure RouteMeta where
  title : Option String := none
  description : Option String := none
  openGraph : Option OpenGraphMeta := none
  twitter : Option TwitterMeta := none
  jsonLd : Option (List (String × String)) := none
deriving DecidableEq, Repr

/-- Caller-supplied route parameters, a record of strings in insertion
order. -/
abbrev Params := List (String × String)

/-- A query value is a string or a sequence of strings (src/types.ts). -/
inductive QueryValue where
  | one (s : String)
  | many (l : List String)
deriving DecidableEq, Repr

/-- The optional query record of the resolver context. -/
abbrev Query := List (String × QueryValue)

/-- The context a MetadataResolver receives (src/types.ts). -/
structure ResolverCtx where
  params : Params := []
  query : Option Query := none
deriving DecidableEq, Repr

/-- One value of the routes mapping: a static `RouteMeta` or a resolver
function.  The monad m stands for the effect of an asynchronous resolver:
Except is a promise that can reject, Id a total resolver, StateM a resolver
with observable effects. -/
inductive RouteEntry (m : Type → Type) where
  | static (meta : RouteMeta)
  | dynamic (f : ResolverCtx → m RouteMeta)

/-- MetadataConfig of src/types.ts.  The routes mapping is a list of
key-value pairs in insertion order: JavaScript objects iterate string keys
in insertion order (route patterns start with a slash, so none is
integer-like). -/
structure MetadataConfig (m : Type → Type) where
  defaults : Option RouteMeta := none
  routes : List (String × RouteEntry m)

/-- The scan of the global replacement of colon tokens: in normal mode
(first argument false) a colon followed by at least one non-slash character
is replaced by the seven characters of the capture group and the scan
switches to skipping mode; in skipping mode (first argument true) the
maximal run of non-slash characters the colon started is consumed without
output; every other character is kept. -/
def replaceColonsAux : Bool → List Char → List Char
  | _, [] => []
  | true, c :: rest =>
      if c = '/' then c :: replaceColonsAux false rest
      else replaceColonsAux true rest
  | false, ':' :: c :: rest =>
      if c = '/' then ':' :: replaceColonsAux false (c :: rest)
      else '(' :: '[' :: '^' :: '/' :: ']' :: '+' :: ')' ::
        replaceColonsAux true (c :: rest)
  | false, c :: rest => c :: replaceColonsAux false rest

/-- The global replacement of colon tokens in a route pattern: scanning left
to right, every colon followed by at least one non-slash character is
replaced, together with the maximal run of non-slash characters after it,
by the seven characters of the capture group; every other character is
kept. -/
def replaceColons (l : List Char) : List Char :=
  replaceColonsAux false l

/-- A token of the compiled regular-expression body: a capture group
matching one or more non-slash characters, or a literal character. -/
inductive Tok where
  | lit (c : Char)
  | group
deriving DecidableEq, Repr

/-- Reads the compiled body the way the regular-expression engine does: each
inserted seven-character group is one group token, every other character
stands for itself. -/
def parseTokens : List Char → List Tok
  | '(' :: '[' :: '^' :: '/' :: ']' :: '+' :: ')' :: rest =>
      Tok.group :: parseTokens rest
  | c :: rest => Tok.lit c :: parseTokens rest
  | [] => []

/-- Anchored matching of a token list against a whole path: a literal token
matches its character, a group token matches one or more non-slash
characters, and the end of the token list must meet the end of the path
(these are the anchors the source adds around the body). -/
def tokMatch : List Tok → List Char → Bool
  | [], [] => true
  | [], _ :: _ => false
  | Tok.lit _ :: _, [] => false
  | Tok.lit c :: ts, d :: ds => c == d && tokMatch ts ds
  | Tok.group :: _, [] => false
  | Tok.group :: ts, d :: ds =>
      d != '/' && (tokMatch ts ds || tokMatch (Tok.group :: ts) ds)

/-- The anchored test of a compiled body against a path. -/
def regexTestAnchored (body : List Char) (path : List Char) : Bool :=
  tokMatch (parseTokens body) path

/-- The test one iteration of the matchRoute loop performs on a route
pattern key: compile the pattern, anchor it, test the path against it. -/
def routeTest (route path : String) : Bool :=
  regexTestAnchored (replaceColons route.data) path.data

/-- The loop of matchRoute (src/utils/resolveMetadata.ts): walk the keys of
the routes mapping in insertion order and return the first whose compiled
regular expression matches the path. -/
def findRoute {m : Type → Type} (path : String) :
    List (String × RouteEntry m) → Option String
  | [] => none
  | (route, _) :: rest =>
      if routeTest route path then some route else findRoute path rest

/-- matchRoute of src/utils/resolveMetadata.ts. -/
def matchRoute {m : Type → Type} (path : String) (config : MetadataConfig m) :
    Option String :=
  findRoute path config.routes

/-- The spread of the resolved record over the defaults: each top-level
field of the result is the resolved field when that field is set, else the
defaults field; sub-records are taken wholesale from the side that wins. -/
def mergeMeta (d r : RouteMeta) : RouteMeta where
  title := r.title.or d.title
  description := r.description.or d.description
  openGraph := r.openGraph.or d.openGraph
  twitter := r.twitter.or d.twitter
  jsonLd := r.jsonLd.or d.jsonLd

/-- resolveMetadata of src/utils/resolveMetadata.ts.  A dynamic entry is
invoked with a context holding only the caller-supplied params (its query
field is absent) and its awaited result is merged over the defaults; the
second none branch is unreachable because matchRoute only returns keys of
the routes mapping. -/
def resolveMetadata {m : Type → Type} [Monad m] (config : MetadataConfig m)
    (path : String) (params : Params) : m RouteMeta :=
  match matchRoute path config with
  | none => pure (config.defaults.getD {})
  | some routeKey =>
      match config.routes.lookup routeKey with
      | some (RouteEntry.dynamic f) =>
          f { params := params } >>= fun routeMeta =>
            pure (mergeMeta (config.defaults.getD {}) routeMeta)
      | some (RouteEntry.static routeMeta) =>
          pure (mergeMeta (config.defaults.getD {}) routeMeta)
      | none => pure (config.defaults.getD {})

/-- The part of the document the hydrator can touch: the title, the content
of the description meta element (none when the element is absent), the
content of the og:image meta element, the content of a twitter meta element
the hydrator never creates or updates, and rest for every other part of the
document. -/
structure DocState (ρ : Type) where
  title : String
  description : Option String
  ogImage : Option String
  twitterCard : Option String
  rest : ρ
deriving DecidableEq, Repr

/-- JavaScript truthiness of an optional string field of a parsed JSON
body: a missing field and the empty string are falsy. -/
def truthy : Option String → Bool
  | none => false
  | some s => s != ""

/-- The optional chain reading the openGraph image of a record. -/
def ogImageOf (meta : RouteMeta) : Option String :=
  meta.openGraph.bind OpenGraphMeta.image

/-- The document effect of one fetched response in updateMeta
(src/client/MetadataHydrator.ts): set the title when the title field is
truthy; create the description element when absent and set its content when
the description field is truthy; likewise for the og:image element; nothing
else. -/
def updateMeta {ρ : Type} (meta : RouteMeta) (doc : DocState ρ) : DocState ρ :=
  let doc1 := if truthy meta.title then { doc with title := meta.title.getD "" } else doc
  let doc2 := if truthy meta.description then
      { doc1 with description := some (meta.description.getD "") } else doc1
  if truthy (ogImageOf meta) then
      { doc2 with ogImage := some ((ogImageOf meta).getD "") } else doc2

/-- The hydrator patch as section 4.2 of the spec describes it, with the
presence conditions stated as JavaScript truthiness: three conditional
field patches, everything else untouched. -/
def specHydratorPatch {ρ : Type} (meta : RouteMeta) (doc : DocState ρ) :
    DocState ρ where
  title := if truthy meta.title then meta.title.getD "" else doc.title
  description :=
    if truthy meta.description then some (meta.description.getD "")
    else doc.description
  ogImage :=
    if truthy (ogImageOf meta) then some ((ogImageOf meta).getD "")
    else doc.ogImage
  twitterCard := doc.twitterCard
  rest := doc.rest

/-- A resolver entry is pure when it has no effect in the state monad: a
static entry, or a dynamic one that returns a function of its context alone
and leaves the state unchanged. -/
def IsPureEntry {σ : Type} : RouteEntry (StateM σ) → Prop
  | RouteEntry.static _ => True
  | RouteEntry.dynamic f => ∃ g : ResolverCtx → RouteMeta, ∀ ctx, f ctx = pure (g ctx)

/-- Metadata of the literal route in the ordering example of the spec. -/
def blogFeaturedMeta : RouteMeta := { title := some "Featured" }

/-- Metadata of the wildcard route in the ordering example of the spec. -/
def blogSlugMeta : RouteMeta := { title := some "Slug" }

/-- The ordering example: a literal pattern and a wildcard pattern that both
match the same path, the literal one inserted first. -/
def blogCfg : MetadataConfig Id :=
  { defaults := none,
    routes := [("/blog/featured", RouteEntry.static blogFeaturedMeta),
               ("/blog/:slug", RouteEntry.static blogSlugMeta)] }

/-- Defaults of the static scenario of the spec. -/
def siteDefaults : RouteMeta := { title := some "Site" }

/-- Metadata of the static route of the spec scenario. -/
def aboutMeta : RouteMeta := { title := some "About" }

/-- The static scenario of the spec: defaults plus one static route. -/
def aboutCfg : MetadataConfig Id :=
  { defaults := some siteDefaults,
    routes := [("/about", RouteEntry.static aboutMeta)] }

/-- Defaults whose openGraph sub-record has two fields set. -/
def ogDefaults : RouteMeta :=
  { openGraph := some { type := some "website", image := some "/og.jpg" } }

/-- A resolved record whose openGraph sub-record sets only the type. -/
def ogArticle : RouteMeta :=
  { openGraph := some { type := some "article" } }

/-- The resolver of the dynamic scenario: reads the caller-supplied name. -/
def userResolver : ResolverCtx → Id RouteMeta :=
  fun ctx => ({ title := ctx.params.lookup "name" } : RouteMeta)

/-- The dynamic scenario of the spec: one wildcard route with a resolver. -/
def userCfg : MetadataConfig Id :=
  { defaults := none,
    routes := [("/user/:name", RouteEntry.dynamic userResolver)] }

/-- The resolver of the blog example: reads the caller-supplied slug. -/
def slugResolver : ResolverCtx → Id RouteMeta :=
  fun ctx => ({ title := ctx.params.lookup "slug" } : RouteMeta)

/-- The blog example configuration with one wildcard route. -/
def slugCfg : MetadataConfig Id :=
  { defaults := none,
    routes := [("/blog/:slug", RouteEntry.dynamic slugResolver)] }

/-- A pure resolver over the state monad. -/
def pureStateResolver : ResolverCtx → StateM Nat RouteMeta :=
  fun ctx => pure { title := ctx.params.lookup "x" }

/-- A configuration over the state monad whose one resolver is pure. -/
def stateCfg : MetadataConfig (StateM Nat) :=
  { defaults := none,
    routes := [("/p/:x", RouteEntry.dynamic pureStateResolver)] }

/-- A concrete document state whose three patchable parts are set. -/
def doc0 : DocState Unit :=
  { title := "old", description := some "d", ogImage := some "o",
    twitterCard := some "t", rest := () }

/-- A first-match characterization of the route loop: the loop returns a key
exactly when the routes list splits into earlier entries that all fail the
compiled test, the entry carrying that key, which passes, and a remainder. -/
theorem findRoute_eq_some_iff {m : Type → Type} (path k : String)
    (routes : List (String × RouteEntry m)) :
    findRoute path routes = some k ↔
      ∃ pre e post, routes = pre ++ e :: post ∧ e.1 = k ∧
        routeTest k path = true ∧ ∀ e₂ ∈ pre, routeTest e₂.1 path = false := by
  induction routes with
  | nil =>
      constructor
      · intro h
        simp [findRoute] at h
      · rintro ⟨pre, e, post, h, -, -, -⟩
        exact absurd h (by simp)
  | cons hd tl ih =>
      obtain ⟨r, v⟩ := hd
      by_cases hr : routeTest r path = true
      · constructor
        · intro h
          have hk : r = k := by simpa [findRoute, hr] using h
          subst hk
          exact ⟨[], (r, v), tl, rfl, rfl, hr, by intro e₂ h₂; cases h₂⟩
        · rintro ⟨pre, e, post, heq, hk, hmk, hpre⟩
          cases pre with
          | nil =>
              simp only [List.nil_append] at heq
              injection heq with h₁ h₂
              subst h₁
              simp [findRoute, hr, ← hk]
          | cons p pre₂ =>
              simp only [List.cons_append] at heq
              injection heq with h₁ h₂
              subst h₁
              exact absurd (hpre (r, v) (by simp)) (by simp [hr])
      · have hr₂ : routeTest r path = false := by simpa using hr
        constructor
        · intro h
          have h₂ : findRoute path tl = some k := by
            simpa [findRoute, hr₂] using h
          obtain ⟨pre, e, post, heq, hk, hmk, hpre⟩ := ih.mp h₂
          refine ⟨(r, v) :: pre, e, post, by simp [heq], hk, hmk, ?_⟩
          intro e₂ h₃
          rcases List.mem_cons.mp h₃ with h₄ | h₄
          · subst h₄; exact hr₂
          · exact hpre e₂ h₄
        · rintro ⟨pre, e, post, heq, hk, hmk, hpre⟩
          cases pre with
          | nil =>
              simp only [List.nil_append] at heq
              injection heq with h₁ h₂
              have hrk : r = k := by rw [← h₁] at hk; exact hk
              rw [← hrk] at hmk
              exact absurd hmk (by simp [hr₂])
          | cons p pre₂ =>
              simp only [List.cons_append] at heq
              injection heq with h₁ h₂
              have h₃ : findRoute path tl = some k :=
                ih.mpr ⟨pre₂, e, post, h₂, hk, hmk,
                  fun e₂ h₄ => hpre e₂ (List.mem_cons_of_mem p h₄)⟩
              simpa [findRoute, hr₂] using h₃

/-- A path failing every compiled test is unmatched. -/
theorem findRoute_eq_none {m : Type → Type} (path : String)
    (routes : List (String × RouteEntry m))
    (h : ∀ e ∈ routes, routeTest e.1 path = false) :
    findRoute path routes = none := by
  induction routes with
  | nil => rfl
  | cons hd tl ih =>
      obtain ⟨r, v⟩ := hd
      have h₁ : routeTest r path = false := h (r, v) (by simp)
      simp only [findRoute, h₁]
      simp
      exact ih fun e he => h e (List.mem_cons_of_mem (r, v) he)

/-- A successful lookup in the routes list names one of its entries. -/
theorem mem_of_lookup_eq_some {β : Type} {k : String} {b : β}
    {l : List (String × β)} (h : l.lookup k = some b) : (k, b) ∈ l := by
  induction l with
  | nil => simp [List.lookup] at h
  | cons hd tl ih =>
      obtain ⟨a, c⟩ := hd
      by_cases hak : (k == a) = true
      · have hk : k = a := by simpa using hak
        subst hk
        simp only [List.lookup, hak] at h
        injection h with h₁
        subst h₁
        exact List.mem_cons_self _ _
      · have hak₂ : (k == a) = false := by simpa using hak
        simp only [List.lookup, hak₂] at h
        exact List.mem_cons_of_mem (a, c) (ih h)

/-- Choosing the set side of an optional value. -/
theorem option_or_eq_ite {α : Type} (a b : Option α) :
    a.or b = if a.isSome then a else b := by
  cases a <;> simp [Option.or]

/-- Reduction of the resolution function on a statically matched route. -/
theorem resolveMetadata_static_eq {m : Type → Type} [Monad m]
    (cfg : MetadataConfig m) (path k : String) (params : Params)
    (meta : RouteMeta)
    (hmatch : matchRoute path cfg = some k)
    (hstatic : cfg.routes.lookup k = some (RouteEntry.static meta)) :
    resolveMetadata cfg path params = pure (mergeMeta (cfg.defaults.getD {}) meta) := by
  simp only [resolveMetadata, hmatch, hstatic]

/-- Reduction of the resolution function on a dynamically matched route. -/
theorem resolveMetadata_dynamic_eq {m : Type → Type} [Monad m]
    (cfg : MetadataConfig m) (path k : String) (params : Params)
    (f : ResolverCtx → m RouteMeta)
    (hmatch : matchRoute path cfg = some k)
    (hdyn : cfg.routes.lookup k = some (RouteEntry.dynamic f)) :
    resolveMetadata cfg path params =
      f { params := params } >>= fun routeMeta =>
        pure (mergeMeta (cfg.defaults.getD {}) routeMeta) := by
  simp only [resolveMetadata, hmatch, hdyn]

/-- The hydrator effect equals its declarative description. -/
theorem updateMeta_eq_patch {ρ : Type} (meta : RouteMeta) (doc : DocState ρ) :
    updateMeta meta doc = specHydratorPatch meta doc := by
  by_cases h₁ : truthy meta.title = true <;>
    by_cases h₂ : truthy meta.description = true <;>
      by_cases h₃ : truthy (ogImageOf meta) = true <;>
        simp [updateMeta, specHydratorPatch, h₁, h₂, h₃]

/-- A trailing group token matches exactly the nonempty runs of non-slash
characters. -/
theorem tokMatch_group_singleton :
    ∀ s : List Char, tokMatch [Tok.group] s = (!s.isEmpty && s.all (fun c => c != '/'))
  | [] => by simp [tokMatch]
  | d :: ds => by
      cases ds with
      | nil => simp [tokMatch]
      | cons e es =>
          have ih := tokMatch_group_singleton (e :: es)
          rw [tokMatch, ih]
          simp [Bool.and_assoc, tokMatch]

/-- A run of literal tokens consumes exactly its characters off the front of
the path. -/
theorem tokMatch_lits_append (cs : List Char) (ts : List Tok) :
    ∀ s : List Char, tokMatch (cs.map Tok.lit ++ ts) s = true ↔
      ∃ t, s = cs ++ t ∧ tokMatch ts t = true := by
  induction cs with
  | nil => intro s; simp
  | cons c cs ih =>
      intro s
      cases s with
      | nil =>
          simp only [List.map_cons, List.cons_append, tokMatch]
          constructor
          · intro h; cases h
          · rintro ⟨t, h, -⟩; cases h
      | cons d ds =>
          simp only [List.map_cons, List.cons_append, tokMatch,
            Bool.and_eq_true, beq_iff_eq, List.append_eq]
          rw [ih ds]
          constructor
          · rintro ⟨rfl, t, rfl, ht⟩
            exact ⟨t, rfl, ht⟩
          · rintro ⟨t, heq, ht⟩
            injection heq with h₁ h₂
            exact ⟨h₁.symm, t, h₂, ht⟩

/-- With only pure resolver entries the whole resolution is a pure state
computation. -/
theorem resolveMetadata_pure_of_pure_entries (σ : Type)
    (cfg : MetadataConfig (StateM σ)) (path : String) (params : Params)
    (hpure : ∀ e ∈ cfg.routes, IsPureEntry e.2) :
    ∃ r : RouteMeta, resolveMetadata cfg path params = pure r := by
  cases hm : matchRoute path cfg with
  | none => exact ⟨cfg.defaults.getD {}, by simp only [resolveMetadata, hm]⟩
  | some k =>
      cases hl : cfg.routes.lookup k with
      | none => exact ⟨cfg.defaults.getD {}, by simp only [resolveMetadata, hm, hl]⟩
      | some entry =>
          cases entry with
          | static meta =>
              exact ⟨mergeMeta (cfg.defaults.getD {}) meta,
                by simp only [resolveMetadata, hm, hl]⟩
          | dynamic f =>
              have hmem := mem_of_lookup_eq_some hl
              have hp : IsPureEntry (RouteEntry.dynamic f) :=
                hpure (k, RouteEntry.dynamic f) hmem
              obtain ⟨g, hg⟩ := hp
              refine ⟨mergeMeta (cfg.defaults.getD {}) (g { params := params }), ?_⟩
              rw [resolveMetadata_dynamic_eq cfg path k params f hm hl, hg]
              simp

/-- C1: resolveMetadata selects a route by testing the path, in the routes
mapping insertion order, against the regular expression compiled from each
pattern key (anchored, every colon token a one-or-more non-slash capture
group); the first pattern whose expression matches the whole path wins, so
of the routes for the literal blog path and the wildcard blog pattern, both
matching the same path, the one inserted earlier yields its result. -/
theorem resolveMetadata_first_matching_route :
    (∀ (m : Type → Type) (cfg : MetadataConfig m) (path k : String),
        matchRoute path cfg = some k ↔
          ∃ (pre : List (String × RouteEntry m)) (e : String × RouteEntry m)
            (post : List (String × RouteEntry m)),
            cfg.routes = pre ++ e :: post ∧ e.1 = k ∧
            routeTest k path = true ∧ ∀ e₂ ∈ pre, routeTest e₂.1 path = false) ∧
    String.mk (replaceColons "/blog/:slug".data) = "/blog/([^/]+)" ∧
    routeTest "/blog/featured" "/blog/featured" = true ∧
    routeTest "/blog/:slug" "/blog/featured" = true ∧
    resolveMetadata blogCfg "/blog/featured" [] = (blogFeaturedMeta : RouteMeta) ∧
    blogFeaturedMeta ≠ blogSlugMeta := by
  exact ⟨fun m cfg path k => findRoute_eq_some_iff path k cfg.routes,
    by decide, by decide, by decide, rfl, by decide⟩

/-- C2: for every matched path the returned value is the shallow merge of
the defaults and the resolved record — the static value of the matched
entry, or the record its resolver function resolves to — with resolved
fields overriding at the top level only; a sub-record such as openGraph
present in the resolved record replaces the corresponding defaults
sub-record wholesale. -/
theorem resolveMetadata_shallow_merge (m : Type → Type) [Monad m] [LawfulMonad m]
    (cfg : MetadataConfig m) (path k : String) (params : Params)
    (hmatch : matchRoute path cfg = some k) :
    (∀ meta : RouteMeta,
        cfg.routes.lookup k = some (RouteEntry.static meta) →
        resolveMetadata cfg path params =
          pure (mergeMeta (cfg.defaults.getD {}) meta)) ∧
    (∀ (f : ResolverCtx → m RouteMeta) (meta : RouteMeta),
        cfg.routes.lookup k = some (RouteEntry.dynamic f) →
        f { params := params, query := none } = pure meta →
        resolveMetadata cfg path params =
          pure (mergeMeta (cfg.defaults.getD {}) meta)) ∧
    (∀ d r : RouteMeta,
        (mergeMeta d r).title = (if r.title.isSome then r.title else d.title) ∧
        (mergeMeta d r).description =
          (if r.description.isSome then r.description else d.description) ∧
        (mergeMeta d r).openGraph =
          (if r.openGraph.isSome then r.openGraph else d.openGraph) ∧
        (mergeMeta d r).twitter = (if r.twitter.isSome then r.twitter else d.twitter) ∧
        (mergeMeta d r).jsonLd = (if r.jsonLd.isSome then r.jsonLd else d.jsonLd)) ∧
    (mergeMeta ogDefaults ogArticle).openGraph = some { type := some "article" } := by
  refine ⟨?_, ?_, ?_, by decide⟩
  · intro meta hstatic
    exact resolveMetadata_static_eq cfg path k params meta hmatch hstatic
  · intro f meta hdyn hf
    rw [resolveMetadata_dynamic_eq cfg path k params f hmatch hdyn, hf]
    simp
  · intro d r
    refine ⟨?_, ?_, ?_, ?_, ?_⟩ <;> simp [mergeMeta, option_or_eq_ite]

/-- Witness for C2 at the static scenario of the spec and at the dynamic
user route. -/
theorem resolveMetadata_shallow_merge_witness :
    resolveMetadata aboutCfg "/about" [] =
      pure (mergeMeta (aboutCfg.defaults.getD {}) aboutMeta) ∧
    resolveMetadata userCfg "/user/alice" [("name", "alice")] =
      pure (mergeMeta (userCfg.defaults.getD {}) { title := some "alice" }) :=
  ⟨(resolveMetadata_shallow_merge Id aboutCfg "/about" "/about" []
      (by decide)).1 aboutMeta rfl,
   (resolveMetadata_shallow_merge Id userCfg "/user/alice" "/user/:name"
      [("name", "alice")] (by decide)).2.1 userResolver { title := some "alice" }
      rfl rfl⟩

/-- C3: a path that matches no route pattern resolves to exactly the
defaults (the empty record when they are absent), independent of the params
argument. -/
theorem resolveMetadata_unmatched_returns_defaults (m : Type → Type) [Monad m]
    (cfg : MetadataConfig m) (path : String) (params : Params)
    (hnone : ∀ e ∈ cfg.routes, routeTest e.1 path = false) :
    resolveMetadata cfg path params = pure (cfg.defaults.getD {}) ∧
    ∀ params₂ : Params,
      resolveMetadata cfg path params₂ = resolveMetadata cfg path params := by
  have hm : matchRoute path cfg = none := findRoute_eq_none path cfg.routes hnone
  constructor
  · simp only [resolveMetadata, hm]
  · intro params₂
    simp only [resolveMetadata, hm]

/-- Witness for C3 at the missing-path scenario of the spec. -/
theorem resolveMetadata_unmatched_returns_defaults_witness :
    resolveMetadata aboutCfg "/missing" [("slug", "x")] =
      pure (aboutCfg.defaults.getD {}) ∧
    ∀ params₂ : Params,
      resolveMetadata aboutCfg "/missing" params₂ =
        resolveMetadata aboutCfg "/missing" [("slug", "x")] :=
  resolveMetadata_unmatched_returns_defaults Id aboutCfg "/missing"
    [("slug", "x")] (by decide)

/-- C4: a matched dynamic entry is invoked with exactly the context holding
the caller-supplied params and no query, and its awaited result is merged; a
matched static entry is used directly; the capture groups of the compiled
expression are never read, so the result depends on the path only through
the selected key. -/
theorem resolveMetadata_resolver_receives_caller_params (m : Type → Type) [Monad m]
    (cfg : MetadataConfig m) (path k : String) (params : Params)
    (hmatch : matchRoute path cfg = some k) :
    (∀ f : ResolverCtx → m RouteMeta,
        cfg.routes.lookup k = some (RouteEntry.dynamic f) →
        resolveMetadata cfg path params =
          f { params := params, query := none } >>= fun routeMeta =>
            pure (mergeMeta (cfg.defaults.getD {}) routeMeta)) ∧
    (∀ meta : RouteMeta,
        cfg.routes.lookup k = some (RouteEntry.static meta) →
        resolveMetadata cfg path params =
          pure (mergeMeta (cfg.defaults.getD {}) meta)) ∧
    (∀ path₂ : String, matchRoute path₂ cfg = some k →
        resolveMetadata cfg path₂ params = resolveMetadata cfg path params) := by
  refine ⟨?_, ?_, ?_⟩
  · intro f hdyn
    exact resolveMetadata_dynamic_eq cfg path k params f hmatch hdyn
  · intro meta hstatic
    exact resolveMetadata_static_eq cfg path k params meta hmatch hstatic
  · intro path₂ hmatch₂
    simp only [resolveMetadata, hmatch, hmatch₂]

/-- Witness for C4 at the dynamic user route. -/
theorem resolveMetadata_resolver_receives_caller_params_witness :
    resolveMetadata userCfg "/user/alice" [("name", "alice")] =
      userResolver { params := [("name", "alice")], query := none } >>= fun routeMeta =>
        pure (mergeMeta (userCfg.defaults.getD {}) routeMeta) :=
  (resolveMetadata_resolver_receives_caller_params Id userCfg "/user/alice"
    "/user/:name" [("name", "alice")] (by decide)).1 userResolver rfl

/-- C5: no error is raised for an unmatched path, and a rejecting resolver
propagates its error unchanged through resolveMetadata, which installs no
catch, retry or fallback. -/
theorem resolveMetadata_error_propagation (ε : Type)
    (cfg : MetadataConfig (Except ε)) (path : String) (params : Params) :
    (matchRoute path cfg = none →
        resolveMetadata cfg path params = Except.ok (cfg.defaults.getD {})) ∧
    (∀ (k : String) (f : ResolverCtx → Except ε RouteMeta) (e : ε),
        matchRoute path cfg = some k →
        cfg.routes.lookup k = some (RouteEntry.dynamic f) →
        f { params := params, query := none } = Except.error e →
        resolveMetadata cfg path params = Except.error e) := by
  constructor
  · intro hm
    simp only [resolveMetadata, hm]
    rfl
  · intro k f e hm hl hf
    rw [resolveMetadata_dynamic_eq cfg path k params f hm hl, hf]
    rfl

/-- C6: the wildcard blog pattern selects the hello-world path, the one
capture group consuming exactly the final segment, and the resolver is
invoked with the caller-supplied slug param (a static value would be used
the same way). -/
theorem resolveMetadata_blog_slug_example :
    matchRoute "/blog/hello-world" slugCfg = some "/blog/:slug" ∧
    routeTest "/blog/:slug" "/blog/hello-world" = true ∧
    "/blog/hello-world".data = "/blog/".data ++ "hello-world".data ∧
    "hello-world".data ≠ [] ∧ '/' ∉ "hello-world".data ∧
    resolveMetadata slugCfg "/blog/hello-world" [("slug", "hello-world")] =
      ({ title := some "hello-world" } : RouteMeta) ∧
    slugResolver { params := [("slug", "hello-world")] } =
      ({ title := some "hello-world" } : RouteMeta) := by
  exact ⟨by decide, by decide, by decide, by decide, by decide, rfl, rfl⟩

/-- C7: with pure resolvers the resolution is deterministic: the returned
record does not depend on the ambient state, and a second call with the
identical config, path and params, run from the state the first call left,
returns the identical record. -/
theorem resolveMetadata_deterministic (σ : Type) (cfg : MetadataConfig (StateM σ))
    (path : String) (params : Params) (s₀ : σ)
    (hpure : ∀ e ∈ cfg.routes, IsPureEntry e.2) :
    ((resolveMetadata cfg path params).run
        (((resolveMetadata cfg path params).run s₀).2)).1 =
      ((resolveMetadata cfg path params).run s₀).1 ∧
    ∀ s₁ : σ, ((resolveMetadata cfg path params).run s₁).1 =
      ((resolveMetadata cfg path params).run s₀).1 := by
  obtain ⟨r, hr⟩ := resolveMetadata_pure_of_pure_entries σ cfg path params hpure
  rw [hr]
  exact ⟨rfl, fun s₁ => rfl⟩

/-- Witness for C7 at a configuration whose one resolver is pure. -/
theorem resolveMetadata_deterministic_witness :
    ((resolveMetadata stateCfg "/p/1" [("x", "1")]).run
        (((resolveMetadata stateCfg "/p/1" [("x", "1")]).run 0).2)).1 =
      ((resolveMetadata stateCfg "/p/1" [("x", "1")]).run 0).1 ∧
    ∀ s₁ : Nat, ((resolveMetadata stateCfg "/p/1" [("x", "1")]).run s₁).1 =
      ((resolveMetadata stateCfg "/p/1" [("x", "1")]).run 0).1 :=
  resolveMetadata_deterministic Nat stateCfg "/p/1" [("x", "1")] 0 (by
    intro e he
    have h : e = ("/p/:x", RouteEntry.dynamic pureStateResolver) := by
      simpa [stateCfg] using he
    subst h
    show ∃ g : ResolverCtx → RouteMeta, ∀ ctx, pureStateResolver ctx = pure (g ctx)
    exact ⟨fun ctx => { title := ctx.params.lookup "x" }, fun ctx => rfl⟩)

/-- C8 counterexample: a response whose title field is present but empty is
not applied — the document title stays unchanged although the claim as
stated requires it to be set whenever the field is present. -/
theorem updateMeta_empty_title_cex :
    ({ title := some "" } : RouteMeta).title.isSome = true ∧
    (updateMeta { title := some "" } doc0).title = "old" ∧
    ("old" : String) ≠ "" := by decide

/-- C8 (amended): each fetched response causes exactly the three conditional
patches of the declarative description — title, description element,
og:image element, each applied when the corresponding field is present and
truthy, that is non-empty — and nothing else: the twitter element and the
rest of the document are never touched, and the twitter and jsonLd fields
of the response are never applied. -/
theorem updateMeta_patches_exactly (ρ : Type) (meta : RouteMeta)
    (doc : DocState ρ) :
    updateMeta meta doc = specHydratorPatch meta doc ∧
    (updateMeta meta doc).twitterCard = doc.twitterCard ∧
    (updateMeta meta doc).rest = doc.rest := by
  have h := updateMeta_eq_patch meta doc
  exact ⟨h, by rw [h]; rfl, by rw [h]; rfl⟩

/-- C9 counterexample: the path whose last segment is fileb — it starts
with file and has one more character — does not match the compiled pattern,
so the pattern does not match every path whose last segment starts with
file plus one character. -/
theorem fileColonId_last_segment_cex :
    "/a/fileb".data = "/a/".data ++ "fileb".data ∧
    '/' ∉ "fileb".data ∧
    "fileb".data = "file".data ++ [Char.ofNat 98] ∧
    routeTest "/file:id" "/a/fileb" = false := by decide

/-- C9 (amended): in pattern compilation every maximal non-slash run
starting at a colon becomes a capture group wherever it occurs, not only at
a whole segment, so the mid-segment pattern compiles to the anchored
expression with the literal prefix and one group, and it matches exactly
the paths made of that literal prefix followed by one or more non-slash
characters — single-segment paths, not every path whose last segment starts
with the literal text. -/
theorem fileColonId_compiles_midsegment :
    ("^" ++ String.mk (replaceColons "/file:id".data) ++ "$") = "^/file([^/]+)$" ∧
    (∀ p : String, routeTest "/file:id" p = true ↔
        ∃ t : List Char, p.data = "/file".data ++ t ∧ t ≠ [] ∧ '/' ∉ t) := by
  refine ⟨by decide, ?_⟩
  intro p
  have hparse : parseTokens (replaceColons "/file:id".data) =
      "/file".data.map Tok.lit ++ [Tok.group] := by decide
  simp only [routeTest, regexTestAnchored, hparse]
  rw [tokMatch_lits_append "/file".data [Tok.group] p.data]
  constructor
  · rintro ⟨t, ht, htm⟩
    rw [tokMatch_group_singleton t] at htm
    simp only [Bool.and_eq_true, Bool.not_eq_true', List.isEmpty_eq_false,
      List.all_eq_true, bne_iff_ne, ne_eq] at htm
    refine ⟨t, ht, ?_, ?_⟩
    · simpa using htm.1
    · intro hmem
      exact (htm.2 '/' hmem) rfl
  · rintro ⟨t, ht, hne, hmem⟩
    refine ⟨t, ht, ?_⟩
    rw [tokMatch_group_singleton t]
    simp only [Bool.and_eq_true, Bool.not_eq_true', List.isEmpty_eq_false,
      List.all_eq_true, bne_iff_ne, ne_eq]
    refine ⟨by simpa using hne, ?_⟩
    intro c hc
    intro hcs
    exact hmem (hcs ▸ hc)

/-- C10: the hydrator never removes or clears metadata: a response omitting
the title, the description, or the openGraph image leaves the corresponding
document state exactly as it was, so a value applied for a previously
visited route persists. -/
theorem updateMeta_never_clears (ρ : Type) (doc : DocState ρ)
    (meta prev : RouteMeta) :
    (meta.title = none → (updateMeta meta doc).title = doc.title) ∧
    (meta.description = none →
        (updateMeta meta doc).description = doc.description) ∧
    (ogImageOf meta = none → (updateMeta meta doc).ogImage = doc.ogImage) ∧
    (meta.title = none →
        (updateMeta meta (updateMeta prev doc)).title = (updateMeta prev doc).title) := by
  refine ⟨?_, ?_, ?_, ?_⟩
  · intro ht
    rw [updateMeta_eq_patch]
    simp [specHydratorPatch, ht, truthy]
  · intro hd
    rw [updateMeta_eq_patch]
    simp [specHydratorPatch, hd, truthy]
  · intro ho
    rw [updateMeta_eq_patch]
    simp [specHydratorPatch, ho, truthy]
  · intro ht
    rw [updateMeta_eq_patch meta (updateMeta prev doc)]
    simp [specHydratorPatch, ht, truthy]

end NextDynamicMetadata
